import Mathlib

/-!
Verification of the rebill invoice generator's core data pipeline.

The JavaScript sources are shallowly embedded: JS runtime values become the
inductive `JVal`, JS numbers are modelled as rationals, objects and arrays are
field lists in insertion order (a JS array is an object whose element slots
are the string keys "0", "1", …, recorded with an `isArr` flag), and the
stateful form/localStorage interactions are modelled by explicit state
passing (`FormState`, returned draft/history values, render flags).
-/

namespace Rebill

/-- A JavaScript runtime value.  `vObj isArr fields` covers both plain objects
(`isArr = false`) and arrays (`isArr = true`, fields keyed "0", "1", …);
`fields` lists the own enumerable properties in insertion order, which is the
order `Object.keys`/`forEach` visit them for the string-keyed data handled
here. -/
inductive JVal : Type where
  | vUndefined : JVal
  | vNull : JVal
  | vBool : Bool → JVal
  | vNum : ℚ → JVal
  | vStr : String → JVal
  | vObj : Bool → List (String × JVal) → JVal

/-- JS truthiness (`if (x)`, `x && y`, `x || y` tests).  `0`, `""`, `null`,
`undefined` and `false` are falsy; every object and array is truthy. -/
def truthy : JVal → Bool
  | .vUndefined => false
  | .vNull => false
  | .vBool b => b
  | .vNum q => q != 0
  | .vStr s => s != ""
  | .vObj _ _ => true

/-- `typeof v === 'object'` — true for plain objects, arrays and `null`. -/
def isObjType : JVal → Bool
  | .vNull => true
  | .vObj _ _ => true
  | _ => false

/-- `Array.isArray(v)`. -/
def isArray : JVal → Bool
  | .vObj a _ => a
  | _ => false

/-- Own-property lookup in a field list (first occurrence). -/
def lookupField : List (String × JVal) → String → Option JVal
  | [], _ => none
  | (k, v) :: rest, key => if k == key then some v else lookupField rest key

/-- JS property write `o[key] = v`: an existing key keeps its position, a new
key is appended at the end. -/
def setField : List (String × JVal) → String → JVal → List (String × JVal)
  | [], key, v => [(key, v)]
  | (k, w) :: rest, key, v =>
      if k == key then (key, v) :: rest else (k, w) :: setField rest key v

/-- JS property read `o[key]`: a missing property — and any property of a
primitive — reads as `undefined`. -/
def getProp (v : JVal) (key : String) : JVal :=
  match v with
  | .vObj _ fs => (lookupField fs key).getD .vUndefined
  | _ => .vUndefined

/-- JS nullish coalescing `v ?? d`. -/
def nullish (v d : JVal) : JVal :=
  match v with
  | .vUndefined => d
  | .vNull => d
  | x => x

/-- JS truthiness-based `v || d`. -/
def jsOr (v d : JVal) : JVal := if truthy v then v else d

/-- `a || b` specialised to strings (empty string is falsy). -/
def jsOrStr (a b : String) : String := if a = "" then b else a

/-- `a || b` specialised to numbers (zero is falsy). -/
def jsOrQ (a b : ℚ) : ℚ := if a = 0 then b else a

/-- Optional chaining two levels deep: `data?.k1?.k2`-style access as used by
`data.seller?.bank` etc. (`getProp` already yields `undefined` on
primitives). -/
def optGet (data : JVal) (k1 k2 : String) : JVal :=
  match getProp data k1 with
  | .vUndefined => .vUndefined
  | .vNull => .vUndefined
  | o => getProp o k2

/-- The three dangerous property names skipped by the merge
(`UNSAFE_KEYS` in storage.js). -/
def UNSAFE_KEYS : List String := ["__proto__", "constructor", "prototype"]

/-!
## Deep merge (storage.js, first variant)

The JS function mutates `target` in place while iterating the source's own
enumerable keys.  The embedding passes the target's field list explicitly and
additionally returns the list of key paths at which the code performs a
property write (`target[key] = …`), so that "never writes through an unsafe
key" can be stated about the writes themselves.  `deepMerge` below projects
out the merged value.

The guard `if (!source || typeof source !== 'object') return target` admits
exactly the `vObj` values: `null` is `typeof 'object'` but falsy, everything
else fails the `typeof` test.
-/

mutual

/-- Body of `deepMerge` once the source is known to be an object: merge the
source's field list into `target`.  Writing a property on a primitive target
would throw in strict mode and is unreachable from the call sites (the
recursion always supplies an object); such a target is returned unchanged
with no writes. -/
def mergeIntoVal (target : JVal) (sfs : List (String × JVal)) :
    JVal × List (List String) :=
  match target with
  | .vObj b tfs =>
      let r := mergeFields tfs sfs
      (.vObj b r.1, r.2)
  | t => (t, [])
termination_by (sizeOf sfs, 1)

/-- The `Object.keys(source).forEach` loop: fold the per-key step over the
source fields in order, threading the target's fields and concatenating the
write logs. -/
def mergeFields (tfs : List (String × JVal)) :
    List (String × JVal) → List (String × JVal) × List (List String)
  | [] => (tfs, [])
  | (k, v) :: rest =>
      let r1 := mergeOne tfs k v
      let r2 := mergeFields r1.1 rest
      (r2.1, r1.2 ++ r2.2)
termination_by l => (sizeOf l, 0)

/-- One iteration of the `forEach` body for source key `k` with value `v`:
unsafe keys are skipped; arrays replace wholesale via `value.slice()` (a
shallow copy, the identity on our immutable representation); plain objects
recurse, creating `{}` at the key first when the target lacks a truthy
object there; scalars overwrite.  (The `hasOwnProperty` re-check is
vacuous here: the keys come from the source's own field list.)  Each
performed write is logged by its key path. -/
def mergeOne (tfs : List (String × JVal)) (k : String) (v : JVal) :
    List (String × JVal) × List (List String) :=
  if UNSAFE_KEYS.contains k then (tfs, [])
  else
    match v with
    | .vObj true elems => (setField tfs k (.vObj true elems), [[k]])
    | .vObj false vfs =>
        let tv := (lookupField tfs k).getD .vUndefined
        let ensure : List (List String) :=
          if truthy tv && isObjType tv then [] else [[k]]
        let base := if truthy tv && isObjType tv then tv else .vObj false []
        let r := mergeIntoVal base vfs
        (setField tfs k r.1, ensure ++ r.2.map (fun p => k :: p))
    | other => (setField tfs k other, [[k]])
termination_by (sizeOf v, 0)

end

/-- `deepMerge(target, source)` together with the log of written key paths. -/
def deepMergeLog (target source : JVal) : JVal × List (List String) :=
  match source with
  | .vObj _ sfs => mergeIntoVal target sfs
  | _ => (target, [])

/-- `deepMerge` from storage.js (first variant): merge `source` into `target`
and return the merged target. -/
def deepMerge (target source : JVal) : JVal := (deepMergeLog target source).1

/-- A key path is safe when no component is one of the three unsafe names. -/
def pathSafe (p : List String) : Bool := p.all (fun c => !(UNSAFE_KEYS.contains c))

/-- All logged write paths are safe. -/
def logSafe (l : List (List String)) : Bool := l.all pathSafe

theorem logSafe_append (a b : List (List String)) :
    logSafe (a ++ b) = (logSafe a && logSafe b) := List.all_append

theorem logSafe_map_cons (k : String) (hk : k ∉ UNSAFE_KEYS)
    (L : List (List String)) (hL : logSafe L = true) :
    logSafe (L.map (fun p => k :: p)) = true := by
  simp only [logSafe, List.all_eq_true] at *
  intro p hp
  rcases List.mem_map.mp hp with ⟨q, hq, rfl⟩
  simpa [pathSafe, hk] using hL q hq

mutual

theorem mergeIntoVal_logSafe :
    ∀ (target : JVal) (sfs : List (String × JVal)),
      logSafe (mergeIntoVal target sfs).2 = true
  | .vUndefined, _ => by simp [mergeIntoVal, logSafe]
  | .vNull, _ => by simp [mergeIntoVal, logSafe]
  | .vBool _, _ => by simp [mergeIntoVal, logSafe]
  | .vNum _, _ => by simp [mergeIntoVal, logSafe]
  | .vStr _, _ => by simp [mergeIntoVal, logSafe]
  | .vObj b tfs, sfs => by simpa [mergeIntoVal] using mergeFields_logSafe tfs sfs
termination_by _ sfs => (sizeOf sfs, 1)

theorem mergeFields_logSafe :
    ∀ (tfs l : List (String × JVal)), logSafe (mergeFields tfs l).2 = true
  | _, [] => by simp [mergeFields, logSafe]
  | tfs, (k, v) :: rest => by
      have h1 := mergeOne_logSafe tfs k v
      have h2 := mergeFields_logSafe (mergeOne tfs k v).1 rest
      simp only [mergeFields, logSafe_append, h1, h2, Bool.and_self]
termination_by _ l => (sizeOf l, 0)

theorem mergeOne_logSafe :
    ∀ (tfs : List (String × JVal)) (k : String) (v : JVal),
      logSafe (mergeOne tfs k v).2 = true
  | tfs, k, .vObj false vfs => by
      by_cases hk : k ∈ UNSAFE_KEYS
      · simp [mergeOne, hk, logSafe]
      · by_cases ht : truthy ((lookupField tfs k).getD .vUndefined)
            && isObjType ((lookupField tfs k).getD .vUndefined)
        · have h2 := logSafe_map_cons k hk _
            (mergeIntoVal_logSafe ((lookupField tfs k).getD .vUndefined) vfs)
          simpa [mergeOne, hk, ht, logSafe_append, logSafe] using h2
        · have h2 := logSafe_map_cons k hk _
            (mergeIntoVal_logSafe (JVal.vObj false []) vfs)
          simpa [mergeOne, hk, ht, logSafe_append, logSafe, pathSafe] using h2
  | tfs, k, .vObj true elems => by
      by_cases hk : k ∈ UNSAFE_KEYS <;>
        simp [mergeOne, hk, logSafe, pathSafe]
  | tfs, k, .vUndefined => by
      by_cases hk : k ∈ UNSAFE_KEYS <;>
        simp [mergeOne, hk, logSafe, pathSafe]
  | tfs, k, .vNull => by
      by_cases hk : k ∈ UNSAFE_KEYS <;>
        simp [mergeOne, hk, logSafe, pathSafe]
  | tfs, k, .vBool b => by
      by_cases hk : k ∈ UNSAFE_KEYS <;>
        simp [mergeOne, hk, logSafe, pathSafe]
  | tfs, k, .vNum q => by
      by_cases hk : k ∈ UNSAFE_KEYS <;>
        simp [mergeOne, hk, logSafe, pathSafe]
  | tfs, k, .vStr s => by
      by_cases hk : k ∈ UNSAFE_KEYS <;>
        simp [mergeOne, hk, logSafe, pathSafe]
termination_by _ _ v => (sizeOf v, 0)

end

theorem deepMergeLog_safe (target source : JVal) :
    logSafe (deepMergeLog target source).2 = true := by
  cases source with
  | vObj a sfs => simpa [deepMergeLog] using mergeIntoVal_logSafe target sfs
  | _ => simp [deepMergeLog, logSafe]

/-!
## Deep merge, stricter variant (storage.js, second variant)

This variant pre-scans each candidate sub-object with `hasUnsafeKeys` and
skips the whole subtree when the scan reports an unsafe name.  The scan uses
the JS `in` operator, which consults the prototype chain as well as the own
properties, so the embedding needs the property names every plain object
inherits from `Object.prototype` (and arrays additionally from
`Array.prototype`).
-/

/-- The property names of `Object.prototype`, which every plain object (and,
transitively, every array) exposes through the `in` operator.  Note that
`constructor` and `__proto__` are among them while `prototype` is not. -/
def OBJECT_PROTO_KEYS : List String :=
  ["constructor", "hasOwnProperty", "isPrototypeOf", "propertyIsEnumerable",
   "toLocaleString", "toString", "valueOf", "__defineGetter__",
   "__defineSetter__", "__lookupGetter__", "__lookupSetter__", "__proto__"]

/-- A representative list of `Array.prototype` property names (the full list
is longer; only membership of the three unsafe names matters here, and those
come from the inherited `Object.prototype` part). -/
def ARRAY_PROTO_KEYS : List String :=
  ["length", "push", "pop", "shift", "unshift", "slice", "splice", "concat",
   "join", "indexOf", "forEach", "map", "filter", "reduce"]
  ++ OBJECT_PROTO_KEYS

/-- The JS `in` operator `k in v`: own properties plus the prototype chain.
`in` on a primitive throws and is unreachable here. -/
def jsIn (k : String) (v : JVal) : Bool :=
  match v with
  | .vObj false fs => fs.any (fun kv => kv.1 == k) || OBJECT_PROTO_KEYS.contains k
  | .vObj true fs => fs.any (fun kv => kv.1 == k) || ARRAY_PROTO_KEYS.contains k
  | _ => false

mutual

/-- `hasUnsafeKeys(obj)` from the strict `deepMerge` variant.  The `visited`
set only guards against reference cycles, which cannot occur in the
tree-shaped `JVal` values (JSON-parsed data is always a tree), so it is
dropped from the embedding. -/
def hasUnsafeKeys (v : JVal) : Bool :=
  match v with
  | .vObj a fs =>
      UNSAFE_KEYS.any (fun k => jsIn k (.vObj a fs)) || hasUnsafeVals fs
  | _ => false
termination_by (sizeOf v, 1)

/-- `Object.values(obj).some(v => v && typeof v === 'object' && hasUnsafeKeys(v))`. -/
def hasUnsafeVals : List (String × JVal) → Bool
  | [] => false
  | (_, v) :: rest =>
      (truthy v && isObjType v && hasUnsafeKeys v) || hasUnsafeVals rest
termination_by l => (sizeOf l, 0)

end

mutual

/-- Strict-variant merge body once the source is known to be an object. -/
def mergeIntoValStrict (target : JVal) (sfs : List (String × JVal)) : JVal :=
  match target with
  | .vObj b tfs => .vObj b (mergeFieldsStrict tfs sfs)
  | t => t
termination_by (sizeOf sfs, 1)

/-- Strict-variant `forEach` loop over the source fields. -/
def mergeFieldsStrict (tfs : List (String × JVal)) :
    List (String × JVal) → List (String × JVal)
  | [] => tfs
  | (k, v) :: rest => mergeFieldsStrict (mergeOneStrict tfs k v) rest
termination_by l => (sizeOf l, 0)

/-- Strict-variant per-key step: identical to `mergeOne` except that a
plain-object value is skipped entirely when `hasUnsafeKeys` holds of it. -/
def mergeOneStrict (tfs : List (String × JVal)) (k : String) (v : JVal) :
    List (String × JVal) :=
  if UNSAFE_KEYS.contains k then tfs
  else
    match v with
    | .vObj true elems => setField tfs k (.vObj true elems)
    | .vObj false vfs =>
        if hasUnsafeKeys (.vObj false vfs) then tfs
        else
          let tv := (lookupField tfs k).getD .vUndefined
          let base := if truthy tv && isObjType tv then tv else .vObj false []
          setField tfs k (mergeIntoValStrict base vfs)
    | other => setField tfs k other
termination_by (sizeOf v, 0)

end

/-- `deepMerge` from storage.js (second, stricter variant). -/
def deepMergeStrict (target source : JVal) : JVal :=
  match source with
  | .vObj _ sfs => mergeIntoValStrict target sfs
  | _ => target

/-- `k in obj` is true on every plain object and every array for both
`__proto__` and `constructor`: they are inherited from `Object.prototype`.
Consequently `hasUnsafeKeys` answers `true` on every object value, whatever
its own fields. -/
theorem hasUnsafeKeys_always_true (a : Bool) (fs : List (String × JVal)) :
    hasUnsafeKeys (.vObj a fs) = true := by
  cases a <;> simp [hasUnsafeKeys, UNSAFE_KEYS, jsIn, OBJECT_PROTO_KEYS,
    ARRAY_PROTO_KEYS]

/-- Hence the strict per-key step drops every plain-object-valued source
field, no matter what it contains. -/
theorem mergeOneStrict_drops_objects (tfs : List (String × JVal)) (k : String)
    (vfs : List (String × JVal)) :
    mergeOneStrict tfs k (.vObj false vfs) = tfs := by
  by_cases hk : k ∈ UNSAFE_KEYS <;>
    simp [mergeOneStrict, hk, hasUnsafeKeys_always_true]

/-!
## Strings and numbers at the DOM boundary

Form fields hold strings.  Numbers written into a field (`el.value = 5`) are
coerced by the DOM to their canonical JS rendering, and `parseFloat` of that
rendering recovers the number exactly.  `FVal` keeps such written numbers
symbolic so this exact float→string→parseFloat round trip of the runtime
stays exact in the model.
-/

/-- Content of a form input's `value`: a plain string, or the canonical
rendering of a number previously assigned to it. -/
inductive FVal where
  | fStr : String → FVal
  | fNum : ℚ → FVal
  deriving DecidableEq

/-- JS whitespace test used by `String.prototype.trim` (the common ASCII
whitespace characters; the exotic Unicode space classes never appear in the
claims' inputs). -/
def jsWhitespace (c : Char) : Bool :=
  c == ' ' || c == '\t' || c == '\n' || c == '\r'

/-- `String.prototype.trim`: strip leading and trailing whitespace. -/
def jsTrim (s : String) : String :=
  (((s.toList.dropWhile jsWhitespace).reverse.dropWhile
      jsWhitespace).reverse).asString

/-- Digit run value, most significant first. -/
def digitsToNat (cs : List Char) : ℕ :=
  cs.foldl (fun n c => 10 * n + (c.toNat - 48)) 0

/-- Value of a fraction-digit run, read after the decimal point. -/
def fracDigitsToRat (cs : List Char) : ℚ :=
  cs.foldr (fun c acc => (((c.toNat - 48 : ℕ) : ℚ) + acc) / 10) 0

/-- A model of JS `parseFloat` on plain decimal strings: skip leading
whitespace, optional sign, integer digits, optional fraction.  `none` stands
for NaN (no digits at all).  Exponent forms are omitted; no claim exercises
them. -/
def parseFloatQ (s : String) : Option ℚ :=
  let cs := s.toList.dropWhile jsWhitespace
  let signAndRest : ℚ × List Char :=
    match cs with
    | '-' :: r => (-1, r)
    | '+' :: r => (1, r)
    | r => (1, r)
  let intPart := signAndRest.2.takeWhile Char.isDigit
  let rest := signAndRest.2.dropWhile Char.isDigit
  let frac :=
    match rest with
    | '.' :: r => r.takeWhile Char.isDigit
    | _ => []
  if intPart.isEmpty && frac.isEmpty then none
  else some (signAndRest.1 * ((digitsToNat intPart : ℚ) + fracDigitsToRat frac))

/-- `parseNumber(value, fallback)` from formatters.js: `parseFloat` with the
fallback whenever the result is not a finite number. -/
def parseNumber (v : FVal) (fallback : ℚ) : ℚ :=
  match v with
  | .fNum q => q
  | .fStr s => (parseFloatQ s).getD fallback

/-- Truthiness of a field value viewed as the string it renders to (a number
rendering is never the empty string). -/
def fvTruthy : FVal → Bool
  | .fStr s => s != ""
  | .fNum _ => true

/-- `.trim()` on a field value (number renderings carry no whitespace). -/
def fvTrim : FVal → FVal
  | .fStr s => .fStr (jsTrim s)
  | .fNum q => .fNum q

/-- JS rendering of an integer or (abridged) rational; integers render
exactly as in JS, and no theorem depends on the non-integral case, which only
arises when crafted JSON places a fractional number in a text field. -/
def numToString (q : ℚ) : String :=
  if q.den = 1 then toString q.num
  else toString q.num ++ "/" ++ toString q.den

/-- `Array.prototype.join(sep)` on a list of already-rendered strings. -/
def joinWith (sep : String) : List String → String
  | [] => ""
  | [x] => x
  | x :: rest => x ++ sep ++ joinWith sep rest

mutual

/-- JS string coercion `String(v)` as the DOM applies it on
`el.value = v`. -/
def jsValToString : JVal → String
  | .vUndefined => "undefined"
  | .vNull => "null"
  | .vBool b => if b then "true" else "false"
  | .vNum q => numToString q
  | .vStr s => s
  | .vObj true elems => joinWith "," (jsArrayElemStrings elems)
  | .vObj false _ => "[object Object]"
termination_by v => sizeOf v

/-- `Array.prototype.toString` joins element strings with "," rendering
`null` and `undefined` elements as the empty string. -/
def jsArrayElemStrings : List (String × JVal) → List String
  | [] => []
  | (_, .vUndefined) :: rest => "" :: jsArrayElemStrings rest
  | (_, .vNull) :: rest => "" :: jsArrayElemStrings rest
  | (_, v) :: rest => jsValToString v :: jsArrayElemStrings rest
termination_by l => sizeOf l

end

/-- Coercion applied when a JS value is assigned to a form field. -/
def fvalOfJVal (v : JVal) : FVal :=
  match v with
  | .vNum q => .fNum q
  | x => .fStr (jsValToString x)

/-!
## Canonical invoice document and totals (calculations.js, form.js)
-/

/-- One line item as collected from a form row. -/
structure Item where
  description : String
  quantity : ℚ
  unitPrice : ℚ
  total : ℚ
  deriving DecidableEq

/-- The totals block of the canonical document. -/
structure Totals where
  subtotal : ℚ
  taxRate : ℚ
  taxAmount : ℚ
  discount : ℚ
  total : ℚ
  balanceDue : ℚ
  deriving DecidableEq

/-- `calculateTotals(items, taxRate, discount)` from calculations.js. -/
def calculateTotals (items : List Item) (taxRate discount : ℚ) : Totals :=
  let subtotal := items.foldl (fun sum item => sum + item.total) 0
  let taxAmount := subtotal * (taxRate / 100)
  let total := subtotal + taxAmount - discount
  { subtotal := subtotal, taxRate := taxRate, taxAmount := taxAmount,
    discount := discount, total := total, balanceDue := total }

/-- A seller or bill-to block. -/
structure Party where
  name : String
  address : String
  email : String
  phone : String
  deriving DecidableEq

/-- The invoice block. -/
structure InvoiceInfo where
  title : String
  date : String
  dueDate : String
  number : String
  notes : String
  instructions : String
  deriving DecidableEq

/-- The settings block. -/
structure Settings where
  currency : String
  locale : String
  deriving DecidableEq

/-- The meta block. -/
structure DocMeta where
  updatedAt : String
  showInvoice : Bool
  deriving DecidableEq

/-- The canonical invoice document produced by `getDataFromForm`. -/
structure Doc where
  schemaVersion : ℕ
  settings : Settings
  seller : Party
  billTo : Party
  invoice : InvoiceInfo
  items : List Item
  totals : Totals
  meta : DocMeta
  deriving DecidableEq

/-!
## Form state (dom.js `getValue`/`setValue`, items.js, form.js)

Every field id used by the code exists in the page, so `getValue(id, d)`
returns the field's current value (the `?? fallback` only fires for a missing
element) and `setValue` stores the coerced value.  The form is therefore a
record of current field contents plus the item rows and the preview-pane
visibility consulted by `isInvoiceVisible()`.
-/

/-- One item row's three inputs. -/
structure ItemRow where
  description : String
  quantity : FVal
  unitPrice : FVal
  deriving DecidableEq

/-- The whole form state. -/
structure FormState where
  sellerName : String
  sellerAddress : String
  sellerEmail : String
  sellerPhone : String
  billToName : String
  billToAddress : String
  billToEmail : String
  billToPhone : String
  invoiceTitle : String
  invoiceDate : String
  invoiceDueDate : String
  invoiceNumber : String
  invoiceNotes : String
  invoiceInstructions : String
  currencyCode : String
  taxRate : FVal
  discountAmount : FVal
  items : List ItemRow
  invoiceVisible : Bool
  deriving DecidableEq

/-- `collectItemsFromForm` from items.js: trim the description, parse the two
numbers with fallback 0 and derive the row total (the per-row display update
is presentation only). -/
def collectItemsFromForm (rows : List ItemRow) : List Item :=
  rows.map fun row =>
    let quantity := parseNumber row.quantity 0
    let unitPrice := parseNumber row.unitPrice 0
    { description := jsTrim row.description, quantity := quantity,
      unitPrice := unitPrice, total := quantity * unitPrice }

/-- `getDataFromForm` from form.js; `now` stands for
`new Date().toISOString()`. -/
def getDataFromForm (f : FormState) (now : String) : Doc :=
  let currency := jsOrStr (jsTrim f.currencyCode) "INR"
  let items := collectItemsFromForm f.items
  let taxRate := parseNumber f.taxRate 0
  let discount := parseNumber f.discountAmount 0
  { schemaVersion := 1,
    settings := { currency := currency, locale := "en-IN" },
    seller := { name := f.sellerName, address := f.sellerAddress,
                email := f.sellerEmail, phone := f.sellerPhone },
    billTo := { name := f.billToName, address := f.billToAddress,
                email := f.billToEmail, phone := f.billToPhone },
    invoice := { title := f.invoiceTitle, date := f.invoiceDate,
                 dueDate := f.invoiceDueDate, number := f.invoiceNumber,
                 notes := f.invoiceNotes,
                 instructions := f.invoiceInstructions },
    items := items,
    totals := calculateTotals items taxRate discount,
    meta := { updatedAt := now, showInvoice := f.invoiceVisible } }

/-!
## Sync orchestrator (form.js `syncFromForm`)

The options object reaches the function as an arbitrary JS value; both fields
default to `undefined`.  The result records the observable effects: the
returned document, the document written to the draft slot (always), and the
document handed to `renderInvoice` when the render option is truthy.  The
totals-display update is presentation only.
-/

/-- The `{ render, showInvoice }` options object. -/
structure SyncOptions where
  render : JVal := .vUndefined
  showInvoice : JVal := .vUndefined

/-- Observable outcome of one `syncFromForm` call. -/
structure SyncResult where
  doc : Doc
  savedDraft : Doc
  renderedDoc : Option Doc

/-- `syncFromForm(options)` from form.js. -/
def syncFromForm (f : FormState) (now : String) (options : SyncOptions) :
    SyncResult :=
  let data := getDataFromForm f now
  let data :=
    match options.showInvoice with
    | .vBool b => { data with meta := { data.meta with showInvoice := b } }
    | _ => data
  { doc := data, savedDraft := data,
    renderedDoc := if truthy options.render then some data else none }

/-!
## History store (history.js `saveToHistory`, part of the modules variant)
-/

/-- One persisted history entry. -/
structure HistoryEntry where
  id : ℕ
  date : String
  number : String
  customerName : String
  total : ℚ
  currency : String
  data : Doc
  deriving DecidableEq

/-- `Array.prototype.findIndex` (as an `Option`al index). -/
def findIndex (p : α → Bool) : List α → Option ℕ
  | [] => none
  | a :: rest => if p a then some 0 else (findIndex p rest).map (· + 1)

/-- The entry literal built at the top of `saveToHistory`; `nowId` stands for
`Date.now()` and `today` for `new Date().toISOString().split('T')[0]`. -/
def mkHistoryEntry (doc : Doc) (nowId : ℕ) (today : String) : HistoryEntry :=
  { id := nowId,
    date := jsOrStr doc.invoice.date today,
    number := jsOrStr doc.invoice.number "",
    customerName := jsOrStr doc.billTo.name "",
    total := jsOrQ doc.totals.total 0,
    currency := jsOrStr doc.settings.currency "INR",
    data := doc }

/-- `saveToHistory(data)` from history.js: replace the first entry whose
non-empty number matches, otherwise prepend, then keep only the first 50
entries.  The stored history list is passed and returned explicitly. -/
def saveToHistory (doc : Doc) (nowId : ℕ) (today : String)
    (history : List HistoryEntry) : List HistoryEntry :=
  let entry := mkHistoryEntry doc nowId today
  let updated :=
    match findIndex (fun h => h.number == entry.number && entry.number != "")
        history with
    | some i => history.set i entry
    | none => entry :: history
  updated.take 50

/-!
## Applying a document to the form (form.js `applyDataToForm`, items.js)
-/

/-- The default row added by `addItemRow()` with no argument. -/
def defaultItemRow : ItemRow := { description := "", quantity := .fNum 1, unitPrice := .fNum 0 }

/-- `addItemRow(item)`: the three inputs receive `item.description ?? ''`,
`item.quantity ?? 1` and `item.unitPrice ?? 0`. -/
def rowOfJVal (item : JVal) : ItemRow :=
  { description := jsValToString (nullish (getProp item "description") (.vStr "")),
    quantity := fvalOfJVal (nullish (getProp item "quantity") (.vNum 1)),
    unitPrice := fvalOfJVal (nullish (getProp item "unitPrice") (.vNum 0)) }

/-- `renderItemsForm(items)` from items.js: a non-array or empty argument
yields the single default row, otherwise one row per element. -/
def renderItemsForm (items : JVal) : List ItemRow :=
  match items with
  | .vObj true elems =>
      if elems.isEmpty then [defaultItemRow]
      else elems.map (fun kv => rowOfJVal kv.2)
  | _ => [defaultItemRow]

/-- The `lines` array built from `legacyBank` (each field contributes a line
when truthy). -/
def bankLines (bank : JVal) : List String :=
  (if truthy (getProp bank "accountNo") then
    ["A/c no: " ++ jsValToString (getProp bank "accountNo")] else [])
  ++ (if truthy (getProp bank "ifsc") then
    ["IFSC: " ++ jsValToString (getProp bank "ifsc")] else [])
  ++ (if truthy (getProp bank "name") then
    ["Name: " ++ jsValToString (getProp bank "name")] else [])

/-- The value finally written to the instructions field: `terms` over
`instructions` by nullish coalescing, with the legacy-bank text substituted
when the coalesced value is falsy, a bank object is present and at least one
bank line exists. -/
def mergedInstructionsVal (data : JVal) : JVal :=
  let legacyBank := optGet data "seller" "bank"
  let legacyInstructions :=
    nullish (optGet data "invoice" "terms")
      (nullish (optGet data "invoice" "instructions") (.vStr ""))
  if !truthy legacyInstructions && truthy legacyBank then
    if (bankLines legacyBank).length > 0 then
      .vStr ("Please send payment to below bank account.\n"
        ++ joinWith "\n" (bankLines legacyBank))
    else legacyInstructions
  else legacyInstructions

/-- `applyDataToForm(data, syncCallback)` from form.js: write every field
from the (arbitrary) data value, rebuild the item rows, and return the
options object the sync callback receives
(`{ render: data.meta?.showInvoice, showInvoice: data.meta?.showInvoice }`). -/
def applyDataToForm (data : JVal) (f : FormState) : FormState × SyncOptions :=
  let f' : FormState :=
    { sellerName := jsValToString (nullish (optGet data "seller" "name") (.vStr "")),
      sellerAddress := jsValToString (nullish (optGet data "seller" "address") (.vStr "")),
      sellerEmail := jsValToString (nullish (optGet data "seller" "email") (.vStr "")),
      sellerPhone := jsValToString (nullish (optGet data "seller" "phone") (.vStr "")),
      billToName := jsValToString (nullish (optGet data "billTo" "name") (.vStr "")),
      billToAddress := jsValToString (nullish (optGet data "billTo" "address") (.vStr "")),
      billToEmail := jsValToString (nullish (optGet data "billTo" "email") (.vStr "")),
      billToPhone := jsValToString (nullish (optGet data "billTo" "phone") (.vStr "")),
      invoiceTitle := jsValToString (nullish (optGet data "invoice" "title") (.vStr "INVOICE")),
      invoiceDate := jsValToString (nullish (optGet data "invoice" "date") (.vStr "")),
      invoiceDueDate := jsValToString (nullish (optGet data "invoice" "dueDate") (.vStr "")),
      invoiceNumber := jsValToString (nullish (optGet data "invoice" "number") (.vStr "")),
      invoiceNotes := jsValToString (nullish (optGet data "invoice" "notes") (.vStr "")),
      invoiceInstructions := jsValToString (mergedInstructionsVal data),
      currencyCode := jsValToString (nullish (optGet data "settings" "currency") (.vStr "INR")),
      taxRate := fvalOfJVal (nullish (optGet data "totals" "taxRate") (.vNum 0)),
      discountAmount := fvalOfJVal (nullish (optGet data "totals" "discount") (.vNum 0)),
      items := renderItemsForm (jsOr (getProp data "items") (.vObj true [])),
      invoiceVisible := f.invoiceVisible }
  (f', { render := optGet data "meta" "showInvoice",
         showInvoice := optGet data "meta" "showInvoice" })

/-!
## JSON export/import pipeline (json-io.js)

`JSON.stringify` followed by `JSON.parse` reproduces a tree of strings,
numbers, booleans and arrays exactly, so the export-then-parse composite is
modelled directly as the value `docToJVal d` (field-by-field equality of
documents then coincides with byte-for-byte equality of their JSON texts).
-/

/-- JSON image of one item. -/
def itemToJVal (it : Item) : JVal :=
  .vObj false
    [("description", .vStr it.description), ("quantity", .vNum it.quantity),
     ("unitPrice", .vNum it.unitPrice), ("total", .vNum it.total)]

/-- JSON image of a canonical document, fields in the insertion order of
`getDataFromForm`. -/
def docToJVal (d : Doc) : JVal :=
  .vObj false
    [("schemaVersion", .vNum d.schemaVersion),
     ("settings", .vObj false
       [("currency", .vStr d.settings.currency),
        ("locale", .vStr d.settings.locale)]),
     ("seller", .vObj false
       [("name", .vStr d.seller.name), ("address", .vStr d.seller.address),
        ("email", .vStr d.seller.email), ("phone", .vStr d.seller.phone)]),
     ("billTo", .vObj false
       [("name", .vStr d.billTo.name), ("address", .vStr d.billTo.address),
        ("email", .vStr d.billTo.email), ("phone", .vStr d.billTo.phone)]),
     ("invoice", .vObj false
       [("title", .vStr d.invoice.title), ("date", .vStr d.invoice.date),
        ("dueDate", .vStr d.invoice.dueDate),
        ("number", .vStr d.invoice.number),
        ("notes", .vStr d.invoice.notes),
        ("instructions", .vStr d.invoice.instructions)]),
     ("items", .vObj true
       (d.items.enum.map (fun p => (toString p.1, itemToJVal p.2)))),
     ("totals", .vObj false
       [("subtotal", .vNum d.totals.subtotal),
        ("taxRate", .vNum d.totals.taxRate),
        ("taxAmount", .vNum d.totals.taxAmount),
        ("discount", .vNum d.totals.discount),
        ("total", .vNum d.totals.total),
        ("balanceDue", .vNum d.totals.balanceDue)]),
     ("meta", .vObj false
       [("updatedAt", .vStr d.meta.updatedAt),
        ("showInvoice", .vBool d.meta.showInvoice)])]

/-- `merged.meta = merged.meta || {}; merged.meta.showInvoice = true` from
`importJsonData` (the nested write lands on an object in every reachable
state; a primitive `meta` would make the strict-mode write throw). -/
def forceShowInvoice (v : JVal) : JVal :=
  match v with
  | .vObj b fs =>
      let ensured :=
        if truthy ((lookupField fs "meta").getD .vUndefined) then fs
        else setField fs "meta" (.vObj false [])
      match (lookupField ensured "meta").getD .vUndefined with
      | .vObj mb mfs =>
          .vObj b (setField ensured "meta"
            (.vObj mb (setField mfs "showInvoice" (.vBool true))))
      | _ => .vObj b ensured
  | _ => v

/-- `importJsonData` from json-io.js, after a successful `JSON.parse`: merge
the parsed value onto the current form-derived document, force
`meta.showInvoice`, apply to the form and run the sync callback
(`syncFromForm` with the options produced by `applyDataToForm`).  `tImport`
and `tSync` are the clock readings of the two `getDataFromForm` passes. -/
def importJsonData (parsed : JVal) (f : FormState) (tImport tSync : String) :
    FormState × SyncResult :=
  let base := getDataFromForm f tImport
  let merged := forceShowInvoice (deepMerge (docToJVal base) parsed)
  let applied := applyDataToForm merged f
  (applied.1, syncFromForm applied.1 tSync applied.2)

/-!
## PDF export filename (json-io.js `downloadPDF`, both pdfmake variants)
-/

/-- A character admitted unchanged by the sanitizer (`[a-zA-Z0-9-_]`). -/
def filenameSafeChar (c : Char) : Bool :=
  c.isAlpha || c.isDigit || c == '-' || c == '_'

/-- `invoiceNumber.replace(/[^a-zA-Z0-9-_]/g, '-')`: every character outside
the class is replaced by a hyphen. -/
def sanitizeNumber (s : String) : String :=
  (s.toList.map (fun c => if filenameSafeChar c then c else '-')).asString

/-- The filename computed by `downloadPDF`: the invoice number (or "draft"
when empty) sanitized and wrapped as `Invoice-….pdf`. -/
def downloadPDFFilename (number : String) : String :=
  let invoiceNumber := jsOrStr number "draft"
  "Invoice-" ++ sanitizeNumber invoiceNumber ++ ".pdf"

/-- The sanitizer as the spec describes it: strip (delete) the characters
outside the class.  Kept separate so the claim can be compared against the
code's behavior. -/
def specStripSanitize (s : String) : String :=
  (s.toList.filter filenameSafeChar).asString

/-!
## Shared concrete values and small helper lemmas
-/

/-- A literal `{}`. -/
def emptyObj : JVal := .vObj false []

/-- `JSON.parse('{"__proto__": {"polluted": true}}')` — note that `JSON.parse`
creates `__proto__` as an ordinary own key. -/
def protoPollutionPayload : JVal :=
  .vObj false [("__proto__", .vObj false [("polluted", .vBool true)])]

/-- The form in its reset/fresh state (the concrete field contents are those
of `resetDraft`; nothing below depends on them). -/
def emptyFormState : FormState :=
  { sellerName := "", sellerAddress := "", sellerEmail := "", sellerPhone := "",
    billToName := "", billToAddress := "", billToEmail := "", billToPhone := "",
    invoiceTitle := "INVOICE", invoiceDate := "", invoiceDueDate := "",
    invoiceNumber := "1", invoiceNotes := "", invoiceInstructions := "",
    currencyCode := "INR", taxRate := .fStr "0", discountAmount := .fStr "0",
    items := [defaultItemRow], invoiceVisible := false }

theorem toList_asString (l : List Char) : l.asString.toList = l := rfl

theorem data_asString (l : List Char) : l.asString.data = l := rfl

theorem foldl_add_totals (l : List Item) (a : ℚ) :
    l.foldl (fun sum item => sum + item.total) a = a + (l.map Item.total).sum := by
  induction l generalizing a with
  | nil => simp
  | cons i t ih => simp [List.foldl_cons, ih, add_assoc]

/-!
## Claim theorems
-/

/-- C1: `deepMerge` never performs a property write through a key named
`__proto__`, `constructor` or `prototype` at any recursion depth (every
logged write path consists of safe keys only); in particular merging the
`{"__proto__": {"polluted": true}}` payload into `{}` writes nothing at all,
so the result has no `polluted` property and the shared prototype is
untouched (the strict variant skips the same top-level key). -/
theorem deepMerge_never_writes_unsafe_keys :
    (∀ target source : JVal, logSafe (deepMergeLog target source).2 = true)
    ∧ deepMerge emptyObj protoPollutionPayload = emptyObj
    ∧ getProp (deepMerge emptyObj protoPollutionPayload) "polluted" = .vUndefined
    ∧ deepMergeStrict emptyObj protoPollutionPayload = emptyObj := by
  refine ⟨deepMergeLog_safe, ?_, ?_, ?_⟩
  · simp [deepMerge, deepMergeLog, emptyObj, protoPollutionPayload,
      mergeIntoVal, mergeFields, mergeOne, UNSAFE_KEYS]
  · simp [deepMerge, deepMergeLog, emptyObj, protoPollutionPayload,
      mergeIntoVal, mergeFields, mergeOne, UNSAFE_KEYS, getProp, lookupField]
  · simp [deepMergeStrict, emptyObj, protoPollutionPayload,
      mergeIntoValStrict, mergeFieldsStrict, mergeOneStrict, UNSAFE_KEYS]

/-- C2: the strict `deepMerge` variant in fact skips every plain-object-valued
source field, clean or not — `hasUnsafeKeys` consults the prototype chain via
`in`, and every plain object inherits `constructor` and `__proto__` from
`Object.prototype`, so the pre-scan is constantly true.  At the failing input
`deepMerge({}, {"a": {"b": 1}})` the claimed behavior is a recursive merge,
but the code returns `{}`. -/
theorem deepMergeStrict_drops_every_subobject :
    (∀ (b : Bool) (fs : List (String × JVal)), hasUnsafeKeys (.vObj b fs) = true)
    ∧ deepMergeStrict emptyObj
        (.vObj false [("a", .vObj false [("b", .vNum 1)])]) = emptyObj := by
  refine ⟨hasUnsafeKeys_always_true, ?_⟩
  simp [deepMergeStrict, emptyObj, mergeIntoValStrict, mergeFieldsStrict,
    mergeOneStrict_drops_objects]

/-- C3: `calculateTotals` returns the subtotal as the sum of the items'
precomputed totals, `taxAmount = subtotal·taxRate/100`,
`total = subtotal + taxAmount − discount` and `balanceDue = total`, with no
clamping (one item of total 2000 with rate 10 and discount 100 gives
2000/200/2100/2100, and a discount exceeding subtotal plus tax drives the
total negative). -/
theorem calculateTotals_spec :
    (∀ (items : List Item) (taxRate discount : ℚ),
      calculateTotals items taxRate discount =
        { subtotal := (items.map Item.total).sum,
          taxRate := taxRate,
          taxAmount := (items.map Item.total).sum * taxRate / 100,
          discount := discount,
          total := (items.map Item.total).sum
            + (items.map Item.total).sum * taxRate / 100 - discount,
          balanceDue := (items.map Item.total).sum
            + (items.map Item.total).sum * taxRate / 100 - discount })
    ∧ calculateTotals [⟨"", 2, 1000, 2000⟩] 10 100 =
        ⟨2000, 10, 200, 100, 2100, 2100⟩
    ∧ (calculateTotals [] 0 5).total = -5 := by
  refine ⟨fun items taxRate discount => ?_, ?_, ?_⟩
  · simp [calculateTotals, Totals.mk.injEq, foldl_add_totals, mul_div_assoc]
  · norm_num [calculateTotals, Totals.mk.injEq]
  · norm_num [calculateTotals]

/-- C9 counterexample: at number `"A B"` the code produces
`Invoice-A-B.pdf` (the space replaced by a hyphen), not the
`Invoice-AB.pdf` that stripping would give. -/
theorem downloadPDFFilename_not_stripped :
    downloadPDFFilename "A B" ≠
      "Invoice-" ++ specStripSanitize "A B" ++ ".pdf" := by decide

/-- C5: `syncFromForm` collects the document from the form, overwrites
`meta.showInvoice` exactly when the option is a boolean, persists the
(possibly overwritten) document to the draft slot unconditionally, renders
exactly when the render option is `true`, and returns the document — stated
for options of the documented type `{render?: bool, showInvoice?: bool}`. -/
theorem syncFromForm_spec (f : FormState) (now : String) (options : SyncOptions)
    (hrender : options.render = .vUndefined ∨ ∃ b, options.render = .vBool b) :
    (∀ b, options.showInvoice = .vBool b →
      (syncFromForm f now options).doc =
        { getDataFromForm f now with
            meta := { (getDataFromForm f now).meta with showInvoice := b } })
    ∧ ((∀ b, options.showInvoice ≠ .vBool b) →
      (syncFromForm f now options).doc = getDataFromForm f now)
    ∧ (syncFromForm f now options).savedDraft = (syncFromForm f now options).doc
    ∧ (options.render = .vBool true →
        (syncFromForm f now options).renderedDoc =
          some (syncFromForm f now options).doc)
    ∧ (options.render ≠ .vBool true →
        (syncFromForm f now options).renderedDoc = none) := by
  refine ⟨?_, ?_, ?_, ?_, ?_⟩
  · intro b hb
    simp [syncFromForm, hb]
  · intro hnb
    match hsi : options.showInvoice with
    | .vBool b => exact absurd hsi (hnb b)
    | .vUndefined | .vNull | .vNum _ | .vStr _ | .vObj _ _ => simp [syncFromForm, hsi]
  · cases options.showInvoice <;> simp [syncFromForm]
  · intro h
    simp [syncFromForm, h, truthy]
  · intro hne
    rcases hrender with h | ⟨b, h⟩
    · simp [syncFromForm, h, truthy]
    · cases b
      · simp [syncFromForm, h, truthy]
      · exact absurd h hne

theorem syncFromForm_spec_witness :
    (syncFromForm emptyFormState "T" ⟨.vBool true, .vBool false⟩).doc =
      { getDataFromForm emptyFormState "T" with
          meta := { (getDataFromForm emptyFormState "T").meta with
                      showInvoice := false } }
    ∧ (syncFromForm emptyFormState "T" ⟨.vBool true, .vBool false⟩).renderedDoc =
        some (syncFromForm emptyFormState "T" ⟨.vBool true, .vBool false⟩).doc :=
  ⟨(syncFromForm_spec emptyFormState "T" ⟨.vBool true, .vBool false⟩
      (Or.inr ⟨true, rfl⟩)).1 false rfl,
   (syncFromForm_spec emptyFormState "T" ⟨.vBool true, .vBool false⟩
      (Or.inr ⟨true, rfl⟩)).2.2.2.1 rfl⟩

/-!
### History-store lemmas (for C6 and C7)
-/

theorem findIndex_eq_none_iff (p : α → Bool) (l : List α) :
    findIndex p l = none ↔ ∀ a ∈ l, p a = false := by
  induction l with
  | nil => simp [findIndex]
  | cons a t ih => by_cases h : p a <;> simp [findIndex, h, ih]

theorem findIndex_some_spec (p : α → Bool) (l : List α) (i : ℕ)
    (hfind : findIndex p l = some i) : ∃ a, l[i]? = some a ∧ p a = true := by
  induction l generalizing i with
  | nil => simp [findIndex] at hfind
  | cons a t ih =>
      by_cases h : p a
      · simp [findIndex, h] at hfind
        exact hfind ▸ ⟨a, by simp, h⟩
      · simp [findIndex, h] at hfind
        rcases hfind with ⟨j, hj, rfl⟩
        rcases ih j hj with ⟨b, hb, hpb⟩
        exact ⟨b, by simpa using hb, hpb⟩

theorem findIndex_isSome_of_mem (p : α → Bool) (l : List α) (a : α)
    (ha : a ∈ l) (hp : p a = true) : ∃ i, findIndex p l = some i := by
  induction l with
  | nil => cases ha
  | cons b t ih =>
      by_cases hb : p b
      · exact ⟨0, by simp [findIndex, hb]⟩
      · rcases List.mem_cons.mp ha with rfl | hat
        · exact absurd hp hb
        · rcases ih hat with ⟨i, hi⟩
          exact ⟨i + 1, by simp [findIndex, hb, hi]⟩

theorem map_set' (f : α → β) (l : List α) (i : ℕ) (a : α) :
    (l.set i a).map f = (l.map f).set i (f a) := by
  induction l generalizing i with
  | nil => simp
  | cons b t ih => cases i <;> simp [ih]

theorem set_self' (l : List α) (i : ℕ) (a : α) (h : l[i]? = some a) :
    l.set i a = l := by
  induction l generalizing i with
  | nil => simp at h
  | cons b t ih =>
      cases i with
      | zero => simp at h; simp [h]
      | succ j => simp at h; simp [ih j h]

/-- At most one history entry per distinct non-empty invoice number. -/
def dedupedNumbers (h : List HistoryEntry) : Prop :=
  (h.map HistoryEntry.number).Pairwise (fun a b => a ≠ "" → a ≠ b)

/-- C6: saving a document whose non-empty number matches an existing entry
replaces that entry in place, leaving the length unchanged; the
one-entry-per-non-empty-number invariant is preserved by every save; and a
document with an empty number is always prepended, never deduplicated. -/
theorem saveToHistory_dedup_spec (history : List HistoryEntry) (doc : Doc)
    (nowId : ℕ) (today : String) :
    (history.length ≤ 50 → doc.invoice.number ≠ "" →
      doc.invoice.number ∈ history.map HistoryEntry.number →
      (saveToHistory doc nowId today history).length = history.length)
    ∧ (dedupedNumbers history →
        dedupedNumbers (saveToHistory doc nowId today history))
    ∧ (doc.invoice.number = "" →
        saveToHistory doc nowId today history =
          (mkHistoryEntry doc nowId today :: history).take 50) := by
  refine ⟨?_, ?_, ?_⟩
  · intro h50 hne hmem
    rcases List.mem_map.mp hmem with ⟨e, hme, hnum⟩
    have hnum' : (mkHistoryEntry doc nowId today).number = doc.invoice.number := by
      simp [mkHistoryEntry, jsOrStr, hne]
    have hp : (fun h => h.number == (mkHistoryEntry doc nowId today).number
        && (mkHistoryEntry doc nowId today).number != "") e = true := by
      simp [hnum', hnum, hne]
    rcases findIndex_isSome_of_mem
      (fun h => h.number == (mkHistoryEntry doc nowId today).number
        && (mkHistoryEntry doc nowId today).number != "") history e hme hp
      with ⟨i, hi⟩
    simp [saveToHistory, hi, List.length_take, List.length_set]
    omega
  · intro hinv
    rcases hfind : findIndex
        (fun h => h.number == (mkHistoryEntry doc nowId today).number
          && (mkHistoryEntry doc nowId today).number != "") history with _ | i
    · have hall := (findIndex_eq_none_iff _ _).mp hfind
      unfold dedupedNumbers at hinv ⊢
      simp only [saveToHistory, hfind, List.map_take]
      refine List.Pairwise.sublist (List.take_sublist _ _) ?_
      simp only [List.map_cons, List.pairwise_cons]
      refine ⟨?_, hinv⟩
      intro b hb hne0
      rcases List.mem_map.mp hb with ⟨e, hme, rfl⟩
      have h0 := hall e hme
      have h1 : ((mkHistoryEntry doc nowId today).number != "") = true := by
        simpa using hne0
      rw [h1, Bool.and_true] at h0
      intro heq
      exact absurd heq.symm (by simpa using h0)
    · rcases findIndex_some_spec _ _ _ hfind with ⟨e, he, hpe⟩
      have hand : e.number = (mkHistoryEntry doc nowId today).number
          ∧ (mkHistoryEntry doc nowId today).number ≠ "" := by
        simpa using hpe
      have hnumeq := hand.1
      have hmapeq : (history.set i (mkHistoryEntry doc nowId today)).map
          HistoryEntry.number = history.map HistoryEntry.number := by
        rw [map_set']
        refine set_self' _ _ _ ?_
        rw [List.getElem?_map, he]
        simp [hnumeq]
      unfold dedupedNumbers at hinv ⊢
      simp only [saveToHistory, hfind, List.map_take, hmapeq]
      exact List.Pairwise.sublist (List.take_sublist _ _) hinv
  · intro hne0
    have hfind : findIndex
        (fun h => h.number == (mkHistoryEntry doc nowId today).number
          && (mkHistoryEntry doc nowId today).number != "") history = none := by
      refine (findIndex_eq_none_iff _ _).mpr fun a _ => ?_
      simp [mkHistoryEntry, jsOrStr, hne0]
    simp [saveToHistory, hfind]

/-- A minimal concrete document whose invoice number is `n`. -/
def simpleDoc (n : String) : Doc :=
  { schemaVersion := 1,
    settings := ⟨"INR", "en-IN"⟩,
    seller := ⟨"S", "Addr", "", ""⟩,
    billTo := ⟨"B", "Addr", "", ""⟩,
    invoice := ⟨"INVOICE", "2025-01-01", "", n, "", ""⟩,
    items := [⟨"it", 1, 1, 1⟩],
    totals := ⟨1, 0, 0, 0, 1, 1⟩,
    meta := ⟨"t", false⟩ }

theorem saveToHistory_dedup_spec_witness :
    (saveToHistory (simpleDoc "7") 2 "D"
        [⟨1, "D", "7", "C", 0, "INR", simpleDoc "7"⟩]).length =
      [(⟨1, "D", "7", "C", 0, "INR", simpleDoc "7"⟩ : HistoryEntry)].length :=
  (saveToHistory_dedup_spec [⟨1, "D", "7", "C", 0, "INR", simpleDoc "7"⟩]
      (simpleDoc "7") 2 "D").1 (by decide) (by decide) (by simp [simpleDoc])

theorem saveToHistory_of_findIndex_none (doc : Doc) (nowId : ℕ) (today : String)
    (h : List HistoryEntry)
    (hf : findIndex
      (fun e => e.number == (mkHistoryEntry doc nowId today).number
        && (mkHistoryEntry doc nowId today).number != "") h = none) :
    saveToHistory doc nowId today h =
      (mkHistoryEntry doc nowId today :: h).take 50 := by
  simp [saveToHistory, hf]

/-- Saving a sequence of documents with fresh (pairwise distinct, non-empty)
invoice numbers onto an empty history always prepends, so the stored numbers
are the reversed input sequence truncated to the 50 most recent. -/
theorem saveAll_fresh_numbers (nowId : ℕ) (today : String) (docs : List Doc) :
    (∀ n ∈ docs.map (fun d => d.invoice.number), n ≠ "") →
    (docs.map (fun d => d.invoice.number)).Pairwise (· ≠ ·) →
    ((docs.foldl (fun h d => saveToHistory d nowId today h) []).map
        HistoryEntry.number) =
      (docs.map (fun d => d.invoice.number)).reverse.take 50 := by
  induction docs using List.reverseRecOn with
  | nil => simp
  | append_singleton l d ih =>
      intro hne hpw
      have hne_l : ∀ n ∈ l.map (fun d => d.invoice.number), n ≠ "" := by
        intro n hn
        exact hne n (by simp [hn])
      have hd_ne : d.invoice.number ≠ "" := hne _ (by simp)
      obtain ⟨hpl, -, hfresh⟩ := List.pairwise_append.mp (by simpa using hpw)
      have IH := ih hne_l hpl
      rw [List.foldl_append]
      have hentry : (mkHistoryEntry d nowId today).number = d.invoice.number := by
        simp [mkHistoryEntry, jsOrStr, hd_ne]
      have hfind : findIndex
          (fun h => h.number == (mkHistoryEntry d nowId today).number
            && (mkHistoryEntry d nowId today).number != "")
          (l.foldl (fun h d => saveToHistory d nowId today h) []) = none := by
        refine (findIndex_eq_none_iff _ _).mpr fun e he => ?_
        have hmem : e.number ∈
            (l.foldl (fun h d => saveToHistory d nowId today h) []).map
              HistoryEntry.number := List.mem_map_of_mem _ he
        rw [IH] at hmem
        have hmem2 : e.number ∈ l.map (fun d => d.invoice.number) :=
          List.mem_reverse.mp (List.mem_of_mem_take hmem)
        have hne2 : e.number ≠ d.invoice.number :=
          hfresh _ hmem2 _ (by simp)
        simp [hentry, hne2]
      simp only [List.foldl_cons, List.foldl_nil]
      rw [saveToHistory_of_findIndex_none _ _ _ _ hfind]
      rw [List.map_take, List.map_cons, hentry, IH, List.map_append,
        List.reverse_append]
      simp only [List.map_cons, List.map_nil, List.reverse_cons,
        List.reverse_nil, List.nil_append, List.singleton_append]
      rw [show (50 : ℕ) = 49 + 1 from rfl, List.take_succ_cons,
        List.take_succ_cons, List.take_take]
      norm_num

/-- C7: every save leaves at most 50 entries; saving 51 documents with
distinct non-empty numbers onto an empty history leaves exactly 50 entries,
newest first, with the oldest (number "1") evicted. -/
theorem saveToHistory_cap_spec :
    (∀ (doc : Doc) (nowId : ℕ) (today : String) (history : List HistoryEntry),
      (saveToHistory doc nowId today history).length ≤ 50)
    ∧ (((List.range 51).map (fun i => simpleDoc (toString (i + 1)))).foldl
        (fun h d => saveToHistory d 0 "D" h) []).map HistoryEntry.number =
        (List.range 50).map (fun i => toString (51 - i))
    ∧ (((List.range 51).map (fun i => simpleDoc (toString (i + 1)))).foldl
        (fun h d => saveToHistory d 0 "D" h) []).length = 50
    ∧ toString 1 ∉
        (((List.range 51).map (fun i => simpleDoc (toString (i + 1)))).foldl
          (fun h d => saveToHistory d 0 "D" h) []).map HistoryEntry.number := by
  have hmap : ((List.range 51).map (fun i => simpleDoc (toString (i + 1)))).map
      (fun d => d.invoice.number) = (List.range 51).map (fun i => toString (i + 1)) := by
    simp [List.map_map, simpleDoc, Function.comp]
  have hne : ∀ n ∈ (List.range 51).map (fun i => toString (i + 1)), n ≠ "" := by
    decide
  have hpw : ((List.range 51).map (fun i => toString (i + 1))).Pairwise (· ≠ ·) := by
    decide
  have hall := saveAll_fresh_numbers 0 "D"
    ((List.range 51).map (fun i => simpleDoc (toString (i + 1))))
    (by rw [hmap]; exact hne) (by rw [hmap]; exact hpw)
  rw [hmap] at hall
  refine ⟨?_, ?_, ?_, ?_⟩
  · intro doc nowId today history
    simp only [saveToHistory]
    exact List.length_take_le _ _
  · rw [hall]; decide
  · have hlen := congrArg List.length hall
    simpa using hlen
  · rw [hall]; decide

/-- `v ?? d` keeps any truthy value. -/
theorem truthy_nullish (v d : JVal) (h : truthy v = true) : nullish v d = v := by
  cases v <;> simp_all [truthy, nullish]

theorem nullish_vUndefined (d : JVal) : nullish .vUndefined d = d := rfl

theorem nullish_vNull (d : JVal) : nullish .vNull d = d := rfl

/-- C8: importing a document carrying `seller.bank` with all three fields
present and neither `invoice.terms` nor `invoice.instructions` makes
`applyDataToForm` fill the instructions field with the payment-instruction
sentence followed by the account-number, IFSC and name lines, in that
order. -/
theorem applyDataToForm_bank_migration (data : JVal) (f : FormState)
    (a i n : String)
    (hterms : optGet data "invoice" "terms" = .vUndefined)
    (hinstr : optGet data "invoice" "instructions" = .vUndefined)
    (hbank : optGet data "seller" "bank" =
      .vObj false [("accountNo", .vStr a), ("ifsc", .vStr i), ("name", .vStr n)])
    (ha : a ≠ "") (hi : i ≠ "") (hn : n ≠ "") :
    (applyDataToForm data f).1.invoiceInstructions =
      "Please send payment to below bank account.\n" ++ ("A/c no: " ++ a)
        ++ "\n" ++ (("IFSC: " ++ i) ++ "\n" ++ ("Name: " ++ n)) := by
  simp [applyDataToForm, mergedInstructionsVal, hterms, hinstr, hbank,
    bankLines, getProp, lookupField, truthy, nullish, joinWith, jsValToString,
    ha, hi, hn, String.append_assoc]

/-- Concrete legacy-bank import payload. -/
def bankData0 : JVal :=
  .vObj false
    [("seller", .vObj false
      [("bank", .vObj false
        [("accountNo", .vStr "123"), ("ifsc", .vStr "ABC"),
         ("name", .vStr "X")])])]

theorem applyDataToForm_bank_migration_witness :
    (applyDataToForm bankData0 emptyFormState).1.invoiceInstructions =
      "Please send payment to below bank account.\n" ++ ("A/c no: " ++ "123")
        ++ "\n" ++ (("IFSC: " ++ "ABC") ++ "\n" ++ ("Name: " ++ "X")) :=
  applyDataToForm_bank_migration bankData0 emptyFormState "123" "ABC" "X"
    rfl rfl rfl (by decide) (by decide) (by decide)

/-- C10 counterexample: with `invoice.terms` present as the empty string (a
defined, non-null value), `invoice.instructions` non-empty and legacy
`seller.bank` data present, the instructions field receives the bank text,
not `terms`. -/
def termsEmptyData : JVal :=
  .vObj false
    [("invoice", .vObj false
      [("terms", .vStr ""), ("instructions", .vStr "keep")]),
     ("seller", .vObj false
      [("bank", .vObj false [("accountNo", .vStr "1")])])]

theorem applyDataToForm_terms_empty_cx :
    optGet termsEmptyData "invoice" "terms" = .vStr ""
    ∧ (applyDataToForm termsEmptyData emptyFormState).1.invoiceInstructions =
        "Please send payment to below bank account.\n" ++ ("A/c no: " ++ "1")
    ∧ (applyDataToForm termsEmptyData emptyFormState).1.invoiceInstructions
        ≠ jsValToString (.vStr "") := by
  refine ⟨rfl, ?_, ?_⟩
  · simp [applyDataToForm, mergedInstructionsVal, termsEmptyData, optGet,
      getProp, lookupField, nullish, truthy, bankLines, joinWith, jsValToString]
  · have h : (applyDataToForm termsEmptyData emptyFormState).1.invoiceInstructions =
        "Please send payment to below bank account.\nA/c no: 1" := by
      simp [applyDataToForm, mergedInstructionsVal, termsEmptyData, optGet,
        getProp, lookupField, nullish, truthy, bankLines, joinWith, jsValToString]
    rw [h]
    simp [jsValToString]

/-- C10 amended: a truthy `invoice.terms` (any non-empty string in
particular) is always what lands in the instructions field, even when
`invoice.instructions` is present and non-empty; `invoice.instructions` is
consulted only when `terms` is null or undefined (and a falsy `terms`, such
as the empty string, instead admits the legacy bank fallback). -/
theorem applyDataToForm_terms_precedence (data : JVal) (f : FormState) :
    (truthy (optGet data "invoice" "terms") = true →
      (applyDataToForm data f).1.invoiceInstructions =
        jsValToString (optGet data "invoice" "terms"))
    ∧ ((optGet data "invoice" "terms" = .vUndefined ∨
        optGet data "invoice" "terms" = .vNull) →
      truthy (optGet data "invoice" "instructions") = true →
      (applyDataToForm data f).1.invoiceInstructions =
        jsValToString (optGet data "invoice" "instructions")) := by
  constructor
  · intro ht
    simp [applyDataToForm, mergedInstructionsVal, truthy_nullish _ _ ht, ht]
  · rintro (h | h) hinstr <;>
      simp [applyDataToForm, mergedInstructionsVal, h, nullish_vUndefined,
        nullish_vNull, truthy_nullish _ _ hinstr, hinstr]

theorem applyDataToForm_terms_precedence_witness :
    (applyDataToForm
        (.vObj false [("invoice", .vObj false
          [("terms", .vStr "T"), ("instructions", .vStr "keep")])])
        emptyFormState).1.invoiceInstructions =
      jsValToString (optGet
        (.vObj false [("invoice", .vObj false
          [("terms", .vStr "T"), ("instructions", .vStr "keep")])])
        "invoice" "terms") :=
  (applyDataToForm_terms_precedence
      (.vObj false [("invoice", .vObj false
        [("terms", .vStr "T"), ("instructions", .vStr "keep")])])
      emptyFormState).1 rfl

/-- C9 amended: the filename is `Invoice-<sanitized>.pdf` where the sanitizer
replaces (not strips) every character outside `[A-Za-z0-9-_]` by a hyphen,
and an empty number uses "draft"; the sanitized part has the same length as
its input and contains only safe characters and hyphens. -/
theorem downloadPDFFilename_spec (s : String) :
    (downloadPDFFilename s).toList =
      "Invoice-".toList
        ++ ((jsOrStr s "draft").toList.map
              (fun c => if filenameSafeChar c then c else '-'))
        ++ ".pdf".toList
    ∧ (sanitizeNumber (jsOrStr s "draft")).toList.length =
        (jsOrStr s "draft").toList.length
    ∧ ∀ c ∈ (sanitizeNumber (jsOrStr s "draft")).toList,
        filenameSafeChar c = true ∨ c = '-' := by
  refine ⟨?_, ?_, ?_⟩
  · simp [downloadPDFFilename, sanitizeNumber, toList_asString, data_asString]
  · simp [sanitizeNumber, toList_asString, data_asString]
  · intro c hc
    simp only [sanitizeNumber, toList_asString, data_asString,
      List.mem_map] at hc
    rcases hc with ⟨c', _, rfl⟩
    by_cases h : filenameSafeChar c' <;> simp [h]

theorem downloadPDFFilename_spec_witness :
    'A' ∈ (sanitizeNumber (jsOrStr "A B" "draft")).toList
    ∧ (filenameSafeChar 'A' = true ∨ 'A' = '-') :=
  ⟨by decide, (downloadPDFFilename_spec "A B").2.2 'A' (by decide)⟩

/-!
### Round-trip lemmas (for C4)
-/

theorem dropWhile_dropWhile (p : α → Bool) (l : List α) :
    (l.dropWhile p).dropWhile p = l.dropWhile p := by
  induction l with
  | nil => simp
  | cons a t ih =>
      by_cases h : p a
      · simp [List.dropWhile_cons, h, ih]
      · simp [List.dropWhile_cons, h]

theorem length_dropWhile_le' (p : α → Bool) (l : List α) :
    (l.dropWhile p).length ≤ l.length := by
  induction l with
  | nil => simp
  | cons a t ih =>
      by_cases h : p a
      · simp only [List.dropWhile_cons, h, if_true, List.length_cons]
        omega
      · simp [List.dropWhile_cons, h]

/-- Trimming from the right preserves "no leading whitespace": the
right-trimmed list is a prefix of the original. -/
theorem trimR_keeps_no_leading (p : α → Bool) (m : List α)
    (hm : m.dropWhile p = m) :
    ((m.reverse.dropWhile p).reverse).dropWhile p
      = (m.reverse.dropWhile p).reverse := by
  have hsplit : m = (m.reverse.dropWhile p).reverse
      ++ (m.reverse.takeWhile p).reverse := by
    have h0 : m.reverse = m.reverse.takeWhile p ++ m.reverse.dropWhile p :=
      (List.takeWhile_append_dropWhile p m.reverse).symm
    calc m = m.reverse.reverse := (List.reverse_reverse m).symm
      _ = (m.reverse.takeWhile p ++ m.reverse.dropWhile p).reverse := by
          rw [← h0]
      _ = (m.reverse.dropWhile p).reverse
            ++ (m.reverse.takeWhile p).reverse := List.reverse_append _ _
  cases hA : (m.reverse.dropWhile p).reverse with
  | nil => simp
  | cons a t =>
      obtain ⟨X, hm'⟩ : ∃ X, m = a :: (t ++ X) := by
        refine ⟨(m.reverse.takeWhile p).reverse, ?_⟩
        conv_lhs => rw [hsplit]
        rw [hA]
        simp
      have hpa : p a = false := by
        by_contra hpa
        have hpa' : p a = true := by simpa using hpa
        have hdrop := hm
        rw [hm'] at hdrop
        simp only [List.dropWhile_cons, hpa', if_true] at hdrop
        have hle := length_dropWhile_le' p (t ++ X)
        rw [hdrop] at hle
        simp at hle
      simp [List.dropWhile_cons, hpa]

theorem jsTrim_idem (s : String) : jsTrim (jsTrim s) = jsTrim s := by
  unfold jsTrim
  rw [toList_asString]
  congr 1
  have h1 : (s.toList.dropWhile jsWhitespace).dropWhile jsWhitespace
      = s.toList.dropWhile jsWhitespace := dropWhile_dropWhile _ _
  have h2 := trimR_keeps_no_leading jsWhitespace
    (s.toList.dropWhile jsWhitespace) h1
  rw [h2, List.reverse_reverse, dropWhile_dropWhile]

/-- The collected currency (`.trim() || 'INR'`) is a fixed point of the same
collection step. -/
theorem currency_stable (s : String) :
    jsOrStr (jsTrim (jsOrStr (jsTrim s) "INR")) "INR"
      = jsOrStr (jsTrim s) "INR" := by
  unfold jsOrStr
  by_cases h : jsTrim s = ""
  · rw [if_pos h]
    decide
  · rw [if_neg h, jsTrim_idem s, if_neg h]

/-- Merging the JSON image of a canonical document onto the JSON image of any
other canonical document overwrites every field: the result is the source
image. -/
theorem deepMerge_docToJVal (e d : Doc) :
    deepMerge (docToJVal e) (docToJVal d) = docToJVal d := by
  simp [docToJVal, deepMerge, deepMergeLog, mergeIntoVal, mergeFields,
    mergeOne, setField, lookupField, UNSAFE_KEYS, truthy, isObjType]

/-- Forcing `meta.showInvoice` on a canonical image sets exactly that
field. -/
theorem forceShowInvoice_docToJVal (d : Doc) :
    forceShowInvoice (docToJVal d) =
      docToJVal { d with meta := { d.meta with showInvoice := true } } := by
  simp [forceShowInvoice, docToJVal, lookupField, setField, truthy]

/-- The form state `applyDataToForm` produces from the JSON image of a
canonical document. -/
def formOfDoc (d : Doc) (visible : Bool) : FormState :=
  { sellerName := d.seller.name, sellerAddress := d.seller.address,
    sellerEmail := d.seller.email, sellerPhone := d.seller.phone,
    billToName := d.billTo.name, billToAddress := d.billTo.address,
    billToEmail := d.billTo.email, billToPhone := d.billTo.phone,
    invoiceTitle := d.invoice.title, invoiceDate := d.invoice.date,
    invoiceDueDate := d.invoice.dueDate, invoiceNumber := d.invoice.number,
    invoiceNotes := d.invoice.notes,
    invoiceInstructions := d.invoice.instructions,
    currencyCode := d.settings.currency,
    taxRate := .fNum d.totals.taxRate,
    discountAmount := .fNum d.totals.discount,
    items := d.items.map (fun it =>
      { description := it.description, quantity := .fNum it.quantity,
        unitPrice := .fNum it.unitPrice }),
    invoiceVisible := visible }

theorem enumFrom_map_snd_comp (F : α → β) (n : ℕ) (l : List α) :
    (List.enumFrom n l).map (fun p => F p.2) = l.map F := by
  induction l generalizing n with
  | nil => simp
  | cons a t ih => simp [List.enumFrom, ih]

theorem rowOfJVal_itemToJVal (it : Item) :
    rowOfJVal (itemToJVal it) =
      { description := it.description, quantity := .fNum it.quantity,
        unitPrice := .fNum it.unitPrice } := by
  simp [rowOfJVal, itemToJVal, getProp, lookupField, nullish, jsValToString,
    fvalOfJVal]

/-- Re-collecting rows that were rendered from already-collected items gives
the same items back (trim is idempotent and the numbers reparse exactly). -/
theorem collect_round (rows : List ItemRow) :
    collectItemsFromForm ((collectItemsFromForm rows).map (fun it =>
      ({ description := it.description, quantity := .fNum it.quantity,
         unitPrice := .fNum it.unitPrice } : ItemRow))) =
      collectItemsFromForm rows := by
  simp [collectItemsFromForm, List.map_map, parseNumber, Function.comp,
    jsTrim_idem]

theorem applyDataToForm_docToJVal (d : Doc) (g : FormState)
    (h : d.items ≠ []) :
    applyDataToForm (docToJVal d) g =
      (formOfDoc d g.invoiceVisible,
       { render := .vBool d.meta.showInvoice,
         showInvoice := .vBool d.meta.showInvoice }) := by
  rcases hd : d.items with _ | ⟨it0, rest⟩
  · exact absurd hd h
  · simp only [applyDataToForm, formOfDoc, docToJVal, optGet, getProp,
      lookupField, nullish, jsValToString, fvalOfJVal, mergedInstructionsVal,
      bankLines, truthy, jsOr, renderItemsForm, hd, List.enum_cons]
    simp [optGet, getProp, lookupField, nullish, jsValToString, fvalOfJVal,
      mergedInstructionsVal, bankLines, truthy, jsOr, renderItemsForm,
      rowOfJVal_itemToJVal]
    rw [show ((fun kv : String × JVal => rowOfJVal kv.2) ∘
        fun p : ℕ × Item => (toString p.1, itemToJVal p.2)) =
        (fun p : ℕ × Item => rowOfJVal (itemToJVal p.2)) from rfl,
      enumFrom_map_snd_comp (fun it => rowOfJVal (itemToJVal it)) 1 rest]
    simp [rowOfJVal_itemToJVal]

/-- Collecting from the form that `applyDataToForm` filled from a collected
document reproduces that document, with the new clock reading and the form's
visibility in `meta`. -/
theorem getDataFromForm_of_collected (f : FormState) (t0 t2 : String)
    (b v : Bool) :
    getDataFromForm
      (formOfDoc { getDataFromForm f t0 with
          meta := { (getDataFromForm f t0).meta with showInvoice := b } } v)
      t2 =
      { getDataFromForm f t0 with
          meta := { updatedAt := t2, showInvoice := v } } := by
  simp only [getDataFromForm, formOfDoc, parseNumber, calculateTotals]
  rw [collect_round f.items, currency_stable f.currencyCode]

/-- C4 amended: exporting the current form's document to JSON and importing
that JSON — parsed, deep-merged onto a fresh empty form-derived document,
applied back to the form and re-synced — reproduces every field of the
original document except `meta.updatedAt` (the new clock reading) and
`meta.showInvoice`, which the import forces to `true`. -/
theorem export_import_roundtrip (f : FormState) (t0 t1 t2 : String)
    (hrows : f.items ≠ []) :
    (importJsonData
        (docToJVal (syncFromForm f t0 { render := .vBool false }).doc)
        emptyFormState t1 t2).2.doc =
      { (syncFromForm f t0 { render := .vBool false }).doc with
          meta := { updatedAt := t2, showInvoice := true } } := by
  have hexp : (syncFromForm f t0 { render := .vBool false }).doc
      = getDataFromForm f t0 := by
    simp [syncFromForm]
  rw [hexp]
  have hDitems : (getDataFromForm f t0).items ≠ [] := by
    simp only [getDataFromForm, collectItemsFromForm, ne_eq,
      List.map_eq_nil_iff]
    exact hrows
  simp only [importJsonData]
  rw [deepMerge_docToJVal, forceShowInvoice_docToJVal,
    applyDataToForm_docToJVal
      { getDataFromForm f t0 with
          meta := { (getDataFromForm f t0).meta with showInvoice := true } }
      emptyFormState hDitems]
  simp only [syncFromForm, emptyFormState, getDataFromForm_of_collected]

/-- C4 counterexample: with the preview hidden at export time, the original
document records `meta.showInvoice = false`, but the re-imported document has
`meta.showInvoice = true` — a field other than `meta.updatedAt` changed. -/
theorem export_import_roundtrip_cx :
    (syncFromForm emptyFormState "t0" { render := .vBool false }).doc.meta.showInvoice
        = false
    ∧ (importJsonData
        (docToJVal (syncFromForm emptyFormState "t0"
          { render := .vBool false }).doc)
        emptyFormState "t1" "t2").2.doc.meta.showInvoice = true := by
  constructor
  · simp [syncFromForm, getDataFromForm, emptyFormState]
  · have h := export_import_roundtrip emptyFormState "t0" "t1" "t2"
      (by simp [emptyFormState])
    rw [h]

theorem export_import_roundtrip_witness :
    emptyFormState.items ≠ []
    ∧ (importJsonData
        (docToJVal (syncFromForm emptyFormState "e0" { render := .vBool false }).doc)
        emptyFormState "e1" "e2").2.doc =
      { (syncFromForm emptyFormState "e0" { render := .vBool false }).doc with
          meta := { updatedAt := "e2", showInvoice := true } } :=
  ⟨by simp [emptyFormState],
   export_import_roundtrip emptyFormState "e0" "e1" "e2" (by simp [emptyFormState])⟩

end Rebill
